import Mathlib

/-!
Verification of the `aept` package manager core against its specification.

The definitions below are a shallow embedding of the C sources:
paths are lists of characters (C strings without the NUL terminator),
the filesystem is a set of lexically resolved absolute paths, and
maintainer scripts / hash computations are oracle parameters.
-/

namespace Aept

/-- A C path string, as a list of characters. -/
abbrev Path := List Char

/-! ## Path & Safety substrate (src/src/util.c, src/src/archive.c) -/

/-- Tokenizer for `strtok_r(dup, "/", &saveptr)` as used by `path_normalize`:
yields the maximal nonempty runs of non-`'/'` characters.  `cur` accumulates
the current token in reverse. -/
def tokensAux : Path → Path → List Path
  | [], cur => if cur = [] then [] else [cur.reverse]
  | c :: rest, cur =>
    if c = '/' then
      if cur = [] then tokensAux rest [] else cur.reverse :: tokensAux rest []
    else tokensAux rest (c :: cur)

def tokens (p : Path) : List Path := tokensAux p []

/-- The component stack loop of `path_normalize` (archive.c:149-163):
`.` is dropped, `..` pops the stack (`if (n > 0) n--`), anything else
is pushed. -/
def resolveDots : List Path → List Path → List Path
  | acc, [] => acc
  | acc, t :: rest =>
    if t = ['.'] then resolveDots acc rest
    else if t = ['.', '.'] then resolveDots acc.dropLast rest
    else resolveDots (acc ++ [t]) rest

/-- `path_normalize` (archive.c:137-190): lexically resolve `.` and `..`,
preserve absoluteness, rejoin with `/`. -/
def path_normalize (p : Path) : Path :=
  let is_abs : Bool := p.head? = some '/'
  let parts := resolveDots [] (tokens p)
  (if is_abs then ['/'] else []) ++ List.intercalate ['/'] parts

/-- `while (right[0] == '.' && right[1] == '/') right += 2;` -/
def stripDotSlash : Path → Path
  | '.' :: '/' :: rest => stripDotSlash rest
  | p => p

/-- `while (right[0] == '/') right++;` -/
def stripSlash : Path → Path
  | '/' :: rest => stripSlash rest
  | p => p

/-- `normalize_path` (util.c:379-386): strip leading `./` pairs, then
leading `/` characters.  The identical stripping loops open `join_paths`
(archive.c:196-199) and the `.list` walk in `aept_remove_files`
(remove.c:68-71). -/
def normalize_path (p : Path) : Path := stripSlash (stripDotSlash p)

/-- `while (len > 1 && left[len - 1] == '/') len--;` (archive.c:211-212),
expressed on the reversed string: drop leading `'/'` characters of the
reverse but keep at least one character. -/
def trimTrailRevAux : Path → Path
  | [] => []
  | c :: rest =>
    if c = '/' then (if rest = [] then [c] else trimTrailRevAux rest)
    else c :: rest

def trimTrail (l : Path) : Path := (trimTrailRevAux l.reverse).reverse

/-- `join_paths` (archive.c:192-233).  `none` models the C `NULL` result
("skip this entry").  The containment check mirrors
`strncmp(normalized, norm_prefix, prefix_len) == 0 &&
 (normalized[prefix_len] == '/' || normalized[prefix_len] == '\0')`. -/
def join_paths (left : Option Path) (right : Path) : Option Path :=
  let r := stripSlash (stripDotSlash right)
  if r = ['.'] then none
  else if r = [] then none
  else
    match left with
    | none => some r
    | some l =>
      let normalized := path_normalize (trimTrail l ++ '/' :: r)
      let norm_prefix := path_normalize l
      if normalized.take norm_prefix.length = norm_prefix ∧
          (normalized.length = norm_prefix.length ∨
            normalized.getD norm_prefix.length ' ' = '/')
      then some normalized
      else none

/-- `pkg_name_is_safe` character loop (util.c:108-115); `first` is
`p == name`. -/
def pkg_name_is_safeAux : Path → Bool → Bool
  | [], _ => true
  | c :: rest, first =>
    if ('a' ≤ c ∧ c ≤ 'z') ∨ ('0' ≤ c ∧ c ≤ '9') then
      pkg_name_is_safeAux rest false
    else if ¬ first ∧ (c = '.' ∨ c = '+' ∨ c = '-') then
      pkg_name_is_safeAux rest false
    else false

/-- `pkg_name_is_safe` (util.c:102-118). -/
def pkg_name_is_safe (name : Path) : Bool :=
  if name = [] then false else pkg_name_is_safeAux name true

/-- `archive_path_is_safe` character loop (util.c:146-152); `prev_dot`
tracks whether the previous character was `'.'`. -/
def archive_path_is_safeAux : Path → Bool → Bool
  | [], _ => true
  | c :: rest, prev_dot =>
    if c = '\n' ∨ c = '\t' then false
    else if c = '.' ∧ prev_dot then false
    else archive_path_is_safeAux rest (c = '.')

/-- `archive_path_is_safe` (util.c:139-155): nonempty, no newline/tab,
no two consecutive dots. -/
def archive_path_is_safe (p : Path) : Bool :=
  if p = [] then false else archive_path_is_safeAux p false

/-- `symlink_target_is_safe` (util.c:120-129). -/
def symlink_target_is_safe (t : Path) : Bool :=
  t.all fun c => ¬ (c = '\n' ∨ c = '\t')

/-! ## Fileset (util.c:393-442)

The C fileset is a sorted vector with `bsearch` membership; sorting only
serves the lookup, so the set is modeled as the list of stored strings and
`bsearch`-after-`qsort` as list membership. -/

/-- `fileset_add` (util.c:401-414): stores the `normalize_path`-stripped
string, skipping empty results. -/
def fileset_add (fs : List Path) (p : Path) : List Path :=
  let q := normalize_path p
  if q = [] then fs else fs ++ [q]

/-- `fileset_contains` (util.c:424-432): normalizes the query and searches
the stored strings. -/
def fileset_contains (fs : List Path) (p : Path) : Bool :=
  let q := normalize_path p
  if fs = [] ∨ q = [] then false
  else fs.contains q


/-! ## Conffile engine (src/src/conffile.c) -/

/-- The decision chain of `aept_conffile_resolve_upgrade`
(conffile.c:300-318) for one conffile path, producing the `install_new`
value: `1` install the new version, `0` keep the old one, and the
`conffile_prompt` result otherwise (which may be `-1`: defer, leaving the
`.aept-new` in place).  `old_md5` is the saved shipped hash from
`conffile_load`, `current_md5` the on-disk hash, `new_md5` the hash of
`<path>.aept-new`; `prompt_result` abstracts `conffile_prompt` (force
flags, TTY state and user input are outside the model). -/
def conffile_install_new (old_md5 current_md5 new_md5 : Option String)
    (prompt_result : Int) : Int :=
  match current_md5 with
  | none => 1
  | some cur =>
    match new_md5 with
    | none => 0
    | some nw =>
      if cur = nw then 0
      else if old_md5 = some cur then 1
      else if old_md5 = some nw then 0
      else prompt_result

/-- Which hash configurations make `aept_conffile_resolve_upgrade` fall
through to `conffile_prompt` (the final `else` of conffile.c:315-317). -/
def conffile_reaches_prompt (old_md5 current_md5 new_md5 : Option String) : Bool :=
  match current_md5 with
  | none => false
  | some cur =>
    match new_md5 with
    | none => false
    | some nw =>
      if cur = nw then false
      else if old_md5 = some cur then false
      else if old_md5 = some nw then false
      else true

/-! ## Archive extraction operations (src/src/archive.c) -/

/-- A data-archive entry, reduced to its raw pathname; regular-file
contents and modes are not needed by the claims below, and hardlink
targets go through the same `join_paths` validation as pathnames. -/
structure ArEntry where
  pathname : Path
deriving DecidableEq

/-- The destinations written by `extract_all` (archive.c:418-504):
each entry's pathname is rewritten by `join_paths(dest, pathname)`
(`transform_all_paths`), entries whose join fails are skipped, and an
entry whose raw pathname is in `conffiles` (checked before the rewrite,
archive.c:453-455) gets `cf_suffix` appended to its destination and goes
through the overwrite-enabled writer.  A `conffiles` of `[]` models the
C `NULL` / `count == 0` cases alike. -/
def extract_all_writes (entries : List ArEntry) (dest : Path)
    (conffiles : List Path) (cf_suffix : Option Path) : List Path :=
  entries.filterMap fun e =>
    let is_conffile := conffiles ≠ [] ∧ fileset_contains conffiles e.pathname
    match join_paths (some dest) e.pathname with
    | none => none
    | some p =>
      some (if is_conffile ∧ cf_suffix.isSome then p ++ cf_suffix.getD [] else p)

/-- The destinations written by `aept_ar_extract_selected`
(archive.c:945-1005): only entries whose raw pathname is in `selected`
are extracted, through `join_paths(dest, pathname)`. -/
def extract_selected_writes (entries : List ArEntry) (selected : List Path)
    (dest : Path) : List Path :=
  entries.filterMap fun e =>
    if fileset_contains selected e.pathname then join_paths (some dest) e.pathname
    else none

/-- The data-archive extraction phase of `do_upgrade_package`
(install.c:507-559): `ar_extract_all(data_ar, extract_root, NULL)` — no
conffile set, no suffix — followed, when the new conffile list is
nonempty, by a second pass `ar_extract_selected(cf_ar, &cf_paths,
cf_tmpdir)` into `<tmpdir>/conffiles-new`, where `cf_paths` is a fileset
built from the new conffile paths. -/
def upgrade_data_extract_writes (entries : List ArEntry)
    (extract_root tmpdir : Path) (new_cf : List Path) : List Path :=
  let main := extract_all_writes entries extract_root [] none
  let cf_writes :=
    if new_cf ≠ [] then
      extract_selected_writes entries (new_cf.foldl fileset_add [])
        (tmpdir ++ "/conffiles-new".toList)
    else []
  main ++ cf_writes


/-! ## System state for the install/remove steps

Files are keyed by the lexically resolved absolute path they occupy on
disk (`path_normalize` of the written or unlinked full path); contents
and modes are not tracked.  MD5 digests of on-disk files are an oracle
indexed by the full path, and maintainer-script exit codes are an oracle
indexed by package name and script name. -/

structure SysState where
  /-- existing files, keyed by lexically resolved absolute paths -/
  files : List Path
  /-- `info_dir/<name>.list` stores: the path column of each line
  (writer and readers split every line at the first tab alike) -/
  lists : List (Path × List Path)
  /-- `info_dir/<name>.conffiles` stores: `(absolute path, saved md5)` -/
  conffiles : List (Path × List (Path × String))
  /-- other `info_dir/<name>.<ext>` entries: control and scripts -/
  infoFiles : List (Path × String)
  /-- status records, reduced to `(Package name, state)` -/
  status : List (Path × String)
  /-- `auto_file` contents: one name per line -/
  autoSet : List Path
  /-- `pin_file` contents: `(name, version)` per line -/
  pins : List (Path × String)
deriving DecidableEq

structure Env where
  /-- `cfg->offline_root`, `[]` when unset -/
  offline_root : Path
  /-- `conffile_md5` oracle: digest of the file at a full path -/
  diskMd5 : Path → Option String
  /-- `run_script` oracle: exit status of `<name>.<script>` (0 when the
  script file does not exist) -/
  scriptExit : Path → String → Int
  /-- `cfg->purge` -/
  purge : Bool

/-- `config_root_path` (config.c:279-285). -/
def config_root_path (env : Env) (p : Path) : Path := env.offline_root ++ p

def lookupAssoc {α : Type} (l : List (Path × α)) (k : Path) : Option α :=
  (l.find? (fun e => e.1 == k)).map (·.2)

/-- Rewrite-the-whole-file store update (tmp + rename). -/
def setAssoc {α : Type} (l : List (Path × α)) (k : Path) (v : α) : List (Path × α) :=
  l.filter (fun e => ¬ (e.1 == k)) ++ [(k, v)]

/-- One extracted file appearing on disk. -/
def addFile (fs : List Path) (p : Path) : List Path :=
  if fs.contains p then fs else fs ++ [p]

/-- Apply a batch of `unlink(full_path)` calls: the kernel resolves the
dot components, so the file at `path_normalize full_path` disappears. -/
def unlinkFiles (fs : List Path) (calls : List Path) : List Path :=
  fs.filter fun f => ¬ calls.any fun r => path_normalize r == f

/-! ## Remove step (src/src/remove.c) -/

/-- The per-line body of the `aept_remove_files` loop (remove.c:49-112):
strip leading `./` and `/`; skip empty, unsafe and protected paths; skip
a conffile whose on-disk digest differs from the saved one; otherwise
produce the `unlink` argument `<offline_root>/<path>`.  `conffiles` is
already empty when purging (remove.c:36-37). -/
def remove_file_action (conffiles : List (Path × String))
    (diskMd5 : Path → Option String) (protectedSet : List Path)
    (offline_root : Path) (line : Path) : Option Path :=
  let path := normalize_path line
  if path = [] then none
  else if ¬ archive_path_is_safe path then none
  else if fileset_contains protectedSet path then none
  else
    let full_path := offline_root ++ '/' :: path
    let abs_path := '/' :: path
    if conffiles ≠ [] then
      match lookupAssoc conffiles abs_path with
      | some saved_md5 =>
        match diskMd5 full_path with
        | some cur_md5 =>
          if ¬ (cur_md5 = saved_md5) then none else some full_path
        | none => some full_path
      | none => some full_path
    else some full_path

/-- All `unlink` calls issued by one run of `aept_remove_files`. -/
def remove_unlink_calls (conffiles : List (Path × String))
    (diskMd5 : Path → Option String) (protectedSet : List Path)
    (offline_root : Path) (lines : List Path) : List Path :=
  lines.filterMap
    (remove_file_action conffiles diskMd5 protectedSet offline_root)

/-- `aept_remove_files` (remove.c:28-118).  A missing `.list` returns
early with no effect; saved conffiles are loaded only when not purging. -/
def aept_remove_files (env : Env) (name : Path) (protectedSet : List Path)
    (st : SysState) : SysState :=
  let conffiles :=
    if env.purge then [] else (lookupAssoc st.conffiles name).getD []
  match lookupAssoc st.lists name with
  | none => st
  | some lines =>
    { st with
      files := unlinkFiles st.files
        (remove_unlink_calls conffiles env.diskMd5 protectedSet
          env.offline_root lines) }

/-- `remove_info_files` (remove.c:120-133, duplicated install.c:395-408):
unlink `<name>.{list,control,conffiles,preinst,postinst,prerm,postrm}`. -/
def remove_info_files (name : Path) (st : SysState) : SysState :=
  { st with
    lists := st.lists.filter fun e => ¬ (e.1 == name)
    conffiles := st.conffiles.filter fun e => ¬ (e.1 == name)
    infoFiles := st.infoFiles.filter fun e => ¬ (e.1 == name) }

/-- `aept_do_remove` (remove.c:135-175): validate the name, run `prerm`
(failure aborts), unlink the listed files, run `postrm` (failure only
warns), drop the info files, the status record, the auto mark and the
pin. -/
def aept_do_remove (env : Env) (name : Path) (protectedSet : List Path)
    (st : SysState) : Int × SysState :=
  if ¬ pkg_name_is_safe name then (-1, st)
  else if ¬ (env.scriptExit name "prerm" = 0) then (-1, st)
  else
    let st1 := aept_remove_files env name protectedSet st
    let st2 := remove_info_files name st1
    (0, { st2 with
      status := st2.status.filter fun r => ¬ (r.1 == name)
      autoSet := st2.autoSet.filter fun n => ¬ (n == name)
      pins := st2.pins.filter fun e => ¬ (e.1 == name) })


/-! ## Install step (src/src/install.c, `do_install_package`) -/

/-- The data an `.ipk` contributes to a step: data-archive entries, the
declared `control/conffiles` lines, which maintainer scripts ship, and
whether a `control` file ships.  Script arguments (`install`,
`upgrade <v>`, `configure <v>`) do not influence the modeled state and
are omitted. -/
structure PkgData where
  entries : List ArEntry
  cfDecl : List Path
  scripts : List String
  hasControl : Bool
deriving DecidableEq

/-- `do_install_package` (install.c:219-393).  Name validation, control
extraction to a transient tmpdir, `preinst` (failure aborts), data
extraction to `config_root_path("/")`, `.list` writing from a second
pass (`ar_extract_paths_to_stream` stops at the first unsafe path),
conffile digest recording, control/script copying, `postinst` (failure
downgrades the recorded state to `unpacked` but the step still succeeds)
and the status update. -/
def do_install_package (env : Env) (name : Path) (pkg : PkgData)
    (st : SysState) : Int × SysState :=
  if ¬ pkg_name_is_safe name then (-1, st)
  else if ¬ (env.scriptExit name "preinst" = 0) then (-1, st)
  else
    let extract_root := config_root_path env ['/']
    let written := extract_all_writes pkg.entries extract_root [] none
    let files1 := written.foldl addFile st.files
    let listLines := (pkg.entries.map (·.pathname)).takeWhile
      (fun p => archive_path_is_safe p)
    let lists1 := setAssoc st.lists name listLines
    -- conffile_parse_list skips unsafe paths (conffile.c:121-124);
    -- conffile_save keeps only entries whose digest was computed
    let cfList := pkg.cfDecl.filter (fun p => archive_path_is_safe p)
    let savedCf := cfList.filterMap fun p =>
      (env.diskMd5 (config_root_path env p)).map fun m => (p, m)
    let conffiles1 :=
      if cfList ≠ [] then setAssoc st.conffiles name savedCf else st.conffiles
    let info1 :=
      (if pkg.hasControl then [(name, "control")] else []) ++
        (["preinst", "postinst", "prerm", "postrm"].filter
          (fun s => pkg.scripts.contains s)).map (fun s => (name, s))
    let state := if ¬ (env.scriptExit name "postinst" = 0)
      then "unpacked" else "installed"
    let status1 := st.status.filter (fun r => ¬ (r.1 == name)) ++ [(name, state)]
    (0, { files := files1, lists := lists1, conffiles := conffiles1,
          infoFiles := st.infoFiles ++ info1, status := status1,
          autoSet := st.autoSet, pins := st.pins })

/-! ## Upgrade step (src/src/install.c, `do_upgrade_package`) -/

/-- `do_upgrade_package` (install.c:410-728).  Returns the step result,
the new system state and the updated protected fileset.  The old `.list`
lines go through `fileset_add` (install.c:490-505), so the removal loop
iterates once-normalized strings.  Conffile resolution (install.c:526-559)
re-extracts conffile entries into the transient `<tmpdir>/conffiles-new`
and then runs `aept_conffile_resolve_upgrade`, which renames or unlinks
`<path>.aept-new` files; no such file is ever created (see the C4
theorem), so it contributes no `SysState` change and the `.conffiles`
entry it saves is dropped again by `remove_info_files` below.
`remove_info_files` (install.c:660) also unlinks the `<name>.list`
written moments earlier (install.c:562-571), so the store ends without a
`.list` entry for the upgraded package. -/
def do_upgrade_package (env : Env) (name : Path) (pkg : PkgData)
    (protectedSet : List Path) (st : SysState) :
    Int × SysState × List Path :=
  if ¬ pkg_name_is_safe name then (-1, st, protectedSet)
  else if ¬ (env.scriptExit name "prerm" = 0) then (-1, st, protectedSet)
  else if ¬ (env.scriptExit name "preinst" = 0) then (-1, st, protectedSet)
  else
    let old_files := ((lookupAssoc st.lists name).getD []).foldl fileset_add []
    let extract_root := config_root_path env ['/']
    let written := extract_all_writes pkg.entries extract_root [] none
    let files1 := written.foldl addFile st.files
    let listLines := (pkg.entries.map (·.pathname)).takeWhile
      (fun p => archive_path_is_safe p)
    let new_files := listLines.foldl fileset_add []
    let old_cf := (lookupAssoc st.conffiles name).getD []
    -- 7. Remove old files not in new package (install.c:592-643)
    let removedCalls := old_files.filterMap fun q =>
      let path := normalize_path q
      if path = [] then none
      else if fileset_contains new_files q then none
      else if fileset_contains protectedSet q then none
      else
        let full_path := env.offline_root ++ '/' :: path
        let abs_path := '/' :: path
        if old_cf ≠ [] then
          match lookupAssoc old_cf abs_path with
          | some saved_md5 =>
            match env.diskMd5 full_path with
            | some cur_md5 =>
              if ¬ (cur_md5 = saved_md5) then none else some full_path
            | none => some full_path
          | none => some full_path
        else some full_path
    let files2 := unlinkFiles files1 removedCalls
    -- install.c:645-649: insert the new files into the protected set
    let protected1 := new_files.foldl fileset_add protectedSet
    -- postrm failure only warns; then info replacement and status update
    let st2 := remove_info_files name
      { st with files := files2, lists := setAssoc st.lists name listLines }
    let info1 :=
      (if pkg.hasControl then [(name, "control")] else []) ++
        (["preinst", "postinst", "prerm", "postrm"].filter
          (fun s => pkg.scripts.contains s)).map (fun s => (name, s))
    let state := if ¬ (env.scriptExit name "postinst" = 0)
      then "unpacked" else "installed"
    let status1 := st2.status.filter (fun r => ¬ (r.1 == name)) ++ [(name, state)]
    (0, { st2 with infoFiles := st2.infoFiles ++ info1, status := status1 },
      protected1)


/-! ## Transaction execute loops (install.c:918-1047, remove.c:240-261)

The solver transaction is modeled as an ordered list of steps;
`Upgraded`/`Downgraded` erase-sides are already skipped by the loop
(install.c:936-938) and carry no effect, so they are not represented.
Dependency auto-marking (install.c:984-1012) only touches the
auto-installed set through solver `provides` data external to this model
and is omitted. -/

inductive TxStep where
  | install (name : Path) (pkg : PkgData)
  | upgrade (name : Path) (pkg : PkgData)
  | erase (name : Path)
deriving DecidableEq

structure TxState where
  sys : SysState
  /-- the shared `installed_files` fileset (install.c:920-922) -/
  protectedSet : List Path
deriving DecidableEq

/-- One iteration of the execute loop of `aept_install`
(install.c:924-1047).  `fileset_sort` calls only order the vector and
have no observable effect here.  After a successful fresh install the
loop re-reads `<name>.list` and feeds every line to `fileset_add`
(install.c:1017-1039); an upgrade updates the protected set itself. -/
def txExecStep (env : Env) (ts : TxState) : TxStep → Int × TxState
  | .erase name =>
    let r := aept_do_remove env name ts.protectedSet ts.sys
    (r.1, ⟨r.2, ts.protectedSet⟩)
  | .install name pkg =>
    let r := do_install_package env name pkg ts.sys
    if r.1 < 0 then (r.1, ⟨r.2, ts.protectedSet⟩)
    else
      let lines := (lookupAssoc r.2.lists name).getD []
      (r.1, ⟨r.2, lines.foldl fileset_add ts.protectedSet⟩)
  | .upgrade name pkg =>
    let r := do_upgrade_package env name pkg ts.protectedSet ts.sys
    (r.1, ⟨r.2.1, r.2.2⟩)

/-- The execute loop: steps run in solver order; a failing step stops
the loop (`goto`, install.c:946-947 and 981-982, without
`force_depends`).  The loop polls no interruption flag — compare
`aept_remove_loop` below. -/
def txExecSteps (env : Env) : TxState → List TxStep → TxState
  | ts, [] => ts
  | ts, s :: rest =>
    let r := txExecStep env ts s
    if r.1 < 0 then r.2 else txExecSteps env r.2 rest

/-- The erase loop of `aept_remove` (remove.c:240-261):
`aept_signal_was_interrupted()` is polled at the top of every iteration
(remove.c:241-245) and stops the loop with an error; each surviving
iteration runs `aept_do_remove(name, NULL, NULL)`.  `interruptedF k` is
the flag value at the `k`-th poll. -/
def aept_remove_loop (env : Env) (interruptedF : Nat → Bool) :
    List Path → SysState → Nat → Int × SysState
  | [], st, _ => (0, st)
  | n :: rest, st, k =>
    if interruptedF k then (-1, st)
    else
      let r := aept_do_remove env n [] st
      if r.1 < 0 then (r.1, r.2)
      else aept_remove_loop env interruptedF rest r.2 (k + 1)

/-! ## Checksum gate and download phase (install.c:102-217, 888-916) -/

/-- `verify_checksum` (install.c:102-153) over the cache-directory
contents: a missing declared checksum skips verification with success;
an unreadable file fails without unlinking; a digest mismatch unlinks
the file and fails.  `chkOf` is the streaming digest oracle. -/
def verify_checksum (cache : List (Path × List Nat)) (path : Path)
    (expected : Option (List Nat)) (chkOf : List Nat → List Nat) :
    Int × List (Path × List Nat) :=
  match expected with
  | none => (0, cache)
  | some exp =>
    match lookupAssoc cache path with
    | none => (-1, cache)
    | some content =>
      if chkOf content = exp then (0, cache)
      else (-1, cache.filter fun e => ¬ (e.1 == path))

/-- One package to download: cache destination, whether the external
fetcher succeeds, the bytes it would fetch, and the index-declared
checksum. -/
structure DlItem where
  path : Path
  fetchOk : Bool
  content : List Nat
  expected : Option (List Nat)
deriving DecidableEq

/-- `download_package` (install.c:155-217): use a verified cached copy
when present (a failed cached verification has already unlinked it),
otherwise fetch (failure unlinks the destination and aborts) and verify. -/
def download_package (chkOf : List Nat → List Nat) (it : DlItem)
    (cache : List (Path × List Nat)) : Int × List (Path × List Nat) :=
  let fetched :=
    if it.fetchOk then
      some (setAssoc cache it.path it.content)
    else none
  match lookupAssoc cache it.path with
  | some _ =>
    let r := verify_checksum cache it.path it.expected chkOf
    if r.1 = 0 then (0, r.2)
    else
      match fetched with
      | none => (-1, r.2.filter fun e => ¬ (e.1 == it.path))
      | some cache1 => verify_checksum cache1 it.path it.expected chkOf
  | none =>
    match fetched with
    | none => (-1, cache.filter fun e => ¬ (e.1 == it.path))
    | some cache1 => verify_checksum cache1 it.path it.expected chkOf

/-- The download phase (install.c:893-916): download and verify every
install step's package in order; the first failure aborts the phase. -/
def download_phase (chkOf : List Nat → List Nat) :
    List DlItem → List (Path × List Nat) → Int × List (Path × List Nat)
  | [], cache => (0, cache)
  | it :: rest, cache =>
    let r := download_package chkOf it cache
    if r.1 < 0 then (-1, r.2)
    else download_phase chkOf rest r.2

/-- The download-then-execute shape of `aept_install` (install.c:888-1060):
a download-phase failure jumps to cleanup before the execute loop, so the
transaction state is returned untouched. -/
def aept_install_driver (env : Env) (chkOf : List Nat → List Nat)
    (items : List DlItem) (steps : List TxStep)
    (cache : List (Path × List Nat)) (ts : TxState) :
    Int × List (Path × List Nat) × TxState :=
  let dl := download_phase chkOf items cache
  if dl.1 < 0 then (-1, dl.2, ts)
  else (0, dl.2, txExecSteps env ts steps)

/-! ## Status load normalization (status.c:19-75) -/

def unpackedStatus : Path := "Status: install ok unpacked".toList

def installedStatus : Path := "Status: install ok installed".toList

/-- One line of the `aept_status_load` rewrite loop (status.c:48-53):
`strncmp(line, "Status: install ok unpacked", 27) == 0` replaces the
whole line with `Status: install ok installed`.  Lines are modeled
without their trailing newline. -/
def status_load_line (line : Path) : Path :=
  if line.take unpackedStatus.length = unpackedStatus then installedStatus
  else line

/-- The stream handed to the solver as the installed repo. -/
def status_load_stream : List Path → List Path
  | [] => []
  | l :: rest => status_load_line l :: status_load_stream rest

/-- Modelled from the claim's words, for comparison: replace every line
*equal* to `Status: install ok unpacked`, carry every other line
byte-for-byte. -/
def status_load_line_claimed (line : Path) : Path :=
  if line = unpackedStatus then installedStatus else line


/-! ## Lemmas about path normalization and safe joining -/

theorem tokensAux_append_slash (b : Path) :
    ∀ (a cur : Path), tokensAux (a ++ '/' :: b) cur = tokensAux a cur ++ tokens b := by
  intro a
  induction a with
  | nil =>
    intro cur
    by_cases hc : cur = [] <;> simp [tokensAux, tokens, hc]
  | cons c rest ih =>
    intro cur
    by_cases hc : c = '/'
    · by_cases hcur : cur = [] <;>
        simp [tokensAux, hc, hcur, ih]
    · simp [tokensAux, hc, ih]

theorem tokens_append_slash (a b : Path) :
    tokens (a ++ '/' :: b) = tokens a ++ tokens b :=
  tokensAux_append_slash b a []

theorem tokens_append_slash_nil (a : Path) :
    tokens (a ++ ['/']) = tokens a := by
  have h := tokens_append_slash a []
  simpa [tokens, tokensAux] using h

theorem trimTrailRevAux_tokens (r : Path) :
    tokens (trimTrailRevAux r).reverse = tokens r.reverse := by
  induction r with
  | nil => rfl
  | cons c rest ih =>
    by_cases hc : c = '/'
    · by_cases hr : rest = []
      · simp [trimTrailRevAux, hc, hr]
      · rw [show trimTrailRevAux (c :: rest) = trimTrailRevAux rest by
              simp [trimTrailRevAux, hc, hr]]
        rw [ih]
        have : (c :: rest).reverse = rest.reverse ++ ['/'] := by simp [hc]
        rw [this, tokens_append_slash_nil]
    · simp [trimTrailRevAux, hc]

theorem tokens_trimTrail (l : Path) : tokens (trimTrail l) = tokens l := by
  have h := trimTrailRevAux_tokens l.reverse
  simpa [trimTrail] using h

theorem trimTrailRevAux_ne_nil (r : Path) (h : r ≠ []) : trimTrailRevAux r ≠ [] := by
  induction r with
  | nil => exact absurd rfl h
  | cons c rest ih =>
    by_cases hc : c = '/'
    · by_cases hr : rest = [] <;> simp [trimTrailRevAux, hc, hr]
      exact ih hr
    · simp [trimTrailRevAux, hc]

theorem trimTrail_ne_nil (l : Path) (h : l ≠ []) : trimTrail l ≠ [] := by
  have : l.reverse ≠ [] := by simpa using h
  have := trimTrailRevAux_ne_nil l.reverse this
  simpa [trimTrail] using this

theorem trimTrailRevAux_last (r : Path) (h : r ≠ []) :
    (trimTrailRevAux r).reverse.head? = r.reverse.head? := by
  induction r with
  | nil => exact absurd rfl h
  | cons c rest ih =>
    by_cases hc : c = '/'
    · by_cases hr : rest = []
      · simp [trimTrailRevAux, hc, hr]
      · rw [show trimTrailRevAux (c :: rest) = trimTrailRevAux rest by
              simp [trimTrailRevAux, hc, hr]]
        rw [ih hr]
        have hrr : rest.reverse ≠ [] := by simpa using hr
        simp [List.head?_append_of_ne_nil _ hrr]
    · simp [trimTrailRevAux, hc]

theorem trimTrail_head (l : Path) : (trimTrail l).head? = l.head? := by
  by_cases h : l = []
  · simp [h, trimTrail, trimTrailRevAux]
  · have h1 := trimTrailRevAux_last l.reverse (by simpa using h)
    simpa [trimTrail] using h1

theorem path_normalize_trimTrail (l r : Path) :
    path_normalize (trimTrail l ++ '/' :: r) = path_normalize (l ++ '/' :: r) := by
  unfold path_normalize
  rw [tokens_append_slash, tokens_append_slash, tokens_trimTrail]
  by_cases h : l = []
  · simp [h, trimTrail, trimTrailRevAux]
  · have h1 : trimTrail l ≠ [] := trimTrail_ne_nil l h
    rw [List.head?_append_of_ne_nil _ h1, List.head?_append_of_ne_nil _ h,
        trimTrail_head]


theorem take_getD_slash {res npfx : Path}
    (h1 : res.take npfx.length = npfx)
    (h2 : res.length = npfx.length ∨ res.getD npfx.length ' ' = '/') :
    res = npfx ∨ npfx ++ ['/'] <+: res := by
  by_cases hlen : res.length = npfx.length
  · left
    rw [← h1, ← hlen, List.take_length]
  · right
    have hle : npfx.length ≤ res.length := by
      have := congrArg List.length h1
      simp only [List.length_take] at this
      omega
    have hlt : npfx.length < res.length := lt_of_le_of_ne hle (by omega)
    have hch : res.getD npfx.length ' ' = '/' := h2.resolve_left hlen
    have hgd : res.getD npfx.length ' ' = res[npfx.length] := by
      simp [List.getD, List.getElem?_eq_getElem hlt]
    have hdrop : res.drop npfx.length = res[npfx.length] :: res.drop (npfx.length + 1) :=
      List.drop_eq_getElem_cons hlt
    refine ⟨res.drop (npfx.length + 1), ?_⟩
    calc npfx ++ ['/'] ++ res.drop (npfx.length + 1)
        = npfx ++ '/' :: res.drop (npfx.length + 1) := by simp
      _ = res.take npfx.length ++ res.drop npfx.length := by
          rw [h1, hdrop, ← hch, hgd]
      _ = res := List.take_append_drop _ _

/-- C1: `join_paths(prefix, entry)` either skips the entry or returns the
lexical normalization of `prefix/stripped-entry`, which is contained in
`normalize(prefix)`: it equals it or extends it after a `/`.  It also
rejects entries that strip to empty or to a bare `.`. -/
theorem join_paths_some_containment (l entry res : Path)
    (h : join_paths (some l) entry = some res) :
    normalize_path entry ≠ [] ∧ normalize_path entry ≠ ['.'] ∧
    res = path_normalize (l ++ '/' :: normalize_path entry) ∧
    (res = path_normalize l ∨ path_normalize l ++ ['/'] <+: res) := by
  simp only [join_paths] at h
  simp only [normalize_path]
  split at h
  · exact absurd h (by simp)
  · split at h
    · exact absurd h (by simp)
    · split at h
      · rename_i hdot hnil hcond
        refine ⟨hnil, hdot, ?_, ?_⟩
        · rw [← path_normalize_trimTrail]
          exact (Option.some_injective _ h).symm
        · obtain ⟨h1, h2⟩ := hcond
          have hres : res = path_normalize (trimTrail l ++ '/' :: stripSlash (stripDotSlash entry)) :=
            (Option.some_injective _ h).symm
          subst hres
          exact take_getD_slash h1 h2
      · exact absurd h (by simp)

/-- Witness for C1 at a concrete prefix and entry. -/
theorem join_paths_some_containment_witness :
    join_paths (some ('/' :: ['r'])) ("usr/bin/x".toList) =
      some ("/r/usr/bin/x".toList) ∧
    ("/r/usr/bin/x".toList = path_normalize ('/' :: ['r']) ∨
      path_normalize ('/' :: ['r']) ++ ['/'] <+: "/r/usr/bin/x".toList) := by
  refine ⟨by decide, ?_⟩
  exact (join_paths_some_containment ('/' :: ['r']) ("usr/bin/x".toList)
    ("/r/usr/bin/x".toList) (by decide)).2.2.2


/-- C3: the three-way conffile decision table.  With `old` the saved
shipped MD5, `on_disk` the MD5 of the file on disk and `new` the MD5 of
the just-extracted shipped version: an absent on-disk file installs the
new version; an absent new version keeps the old; equal hashes are a
no-op (keep, `install_new = 0`); if they differ and `old` matches the
on-disk file the new version is silently installed; if they differ and
`old` matches the new version the old is kept; and the user is prompted
exactly when on-disk and new differ and `old` matches neither. -/
theorem conffile_decision_table (old cur nw : Option String) (pr : Int) :
    (cur = none → conffile_install_new old cur nw pr = 1) ∧
    (cur ≠ none → nw = none → conffile_install_new old cur nw pr = 0) ∧
    (∀ c, cur = some c → nw = some c → conffile_install_new old cur nw pr = 0) ∧
    (∀ c n, cur = some c → nw = some n → c ≠ n → old = some c →
      conffile_install_new old cur nw pr = 1) ∧
    (∀ c n, cur = some c → nw = some n → c ≠ n → old = some n →
      conffile_install_new old cur nw pr = 0) ∧
    (∀ c n, cur = some c → nw = some n → c ≠ n → old ≠ some c → old ≠ some n →
      conffile_install_new old cur nw pr = pr) ∧
    (conffile_reaches_prompt old cur nw = true ↔
      ∃ c n, cur = some c ∧ nw = some n ∧ c ≠ n ∧ old ≠ some c ∧ old ≠ some n) := by
  refine ⟨?_, ?_, ?_, ?_, ?_, ?_, ?_⟩
  · intro h; subst h; rfl
  · intro hc hn
    subst hn
    cases cur with
    | none => exact absurd rfl hc
    | some c => rfl
  · intro c hc hn
    subst hc; subst hn
    simp [conffile_install_new]
  · intro c n hc hn hne hold
    subst hc; subst hn
    simp [conffile_install_new, hne, hold]
  · intro c n hc hn hne hold
    subst hc; subst hn
    have hnc : old ≠ some c := by
      rw [hold]
      intro h
      exact hne (Option.some_injective _ h).symm
    simp [conffile_install_new, hne, hold, hnc, Ne.symm hne]
  · intro c n hc hn hne ho1 ho2
    subst hc; subst hn
    simp [conffile_install_new, hne, ho1, ho2]
  · constructor
    · intro h
      cases cur with
      | none => simp [conffile_reaches_prompt] at h
      | some c =>
        cases nw with
        | none => simp [conffile_reaches_prompt] at h
        | some n =>
          simp only [conffile_reaches_prompt] at h
          split at h
          · exact absurd h (by simp)
          · split at h
            · exact absurd h (by simp)
            · split at h
              · exact absurd h (by simp)
              · rename_i h1 h2 h3
                exact ⟨c, n, rfl, rfl, h1, h2, h3⟩
    · rintro ⟨c, n, hc, hn, hne, ho1, ho2⟩
      subst hc; subst hn
      simp [conffile_reaches_prompt, hne, ho1, ho2]

/-- Witness for C3: a user-modified conffile with a changed package
version reaches the prompt, and the prompt result is returned. -/
theorem conffile_decision_table_witness :
    conffile_install_new (some "o") (some "c") (some "n") (-1) = -1 ∧
    conffile_reaches_prompt (some "o") (some "c") (some "n") = true := by
  constructor
  · exact (conffile_decision_table (some "o") (some "c") (some "n") (-1)).2.2.2.2.2.1
      "c" "n" rfl rfl (by decide) (by decide) (by decide)
  · exact ((conffile_decision_table (some "o") (some "c") (some "n") 0).2.2.2.2.2.2).mpr
      ⟨"c", "n", rfl, rfl, by decide, by decide, by decide⟩

/-- C4 (code bug): upgrading a package whose data archive ships the
declared conffile `./etc/srv.conf` extracts it directly to the root and
re-extracts it into `<tmpdir>/conffiles-new/etc/srv.conf`; no destination
ending in `.aept-new` is ever written, although `extract_all` called with
`conffiles = new_cf` and `cf_suffix = ".aept-new"` — as the spec and the
`aept_conffile_resolve_upgrade` contract in conffile.h describe — would
have produced `/r/etc/srv.conf.aept-new`. -/
theorem upgrade_extract_writes_no_aept_new :
    upgrade_data_extract_writes [ArEntry.mk "./etc/srv.conf".toList]
        "/r/".toList "/tmp/aeptXX".toList ["/etc/srv.conf".toList] =
      ["/r/etc/srv.conf".toList, "/tmp/aeptXX/conffiles-new/etc/srv.conf".toList] ∧
    (upgrade_data_extract_writes [ArEntry.mk "./etc/srv.conf".toList]
        "/r/".toList "/tmp/aeptXX".toList ["/etc/srv.conf".toList]).all
      (fun w => ¬ (".aept-new".toList <:+ w)) = true ∧
    extract_all_writes [ArEntry.mk "./etc/srv.conf".toList] "/r/".toList
        (["/etc/srv.conf".toList].foldl fileset_add []) (some ".aept-new".toList) =
      ["/r/etc/srv.conf.aept-new".toList] := by
  refine ⟨by decide, by decide, by decide⟩


/-! ## Remove- and install-step theorems -/

theorem remove_file_action_congr (cf : List (Path × String))
    (md5o : Path → Option String) (prot : List Path) (root : Path)
    {a b : Path} (h : normalize_path a = normalize_path b) :
    remove_file_action cf md5o prot root a =
      remove_file_action cf md5o prot root b := by
  simp only [remove_file_action, h]

theorem remove_file_action_some (cf : List (Path × String))
    (md5o : Path → Option String) (prot : List Path) (root line p : Path)
    (h : remove_file_action cf md5o prot root line = some p) :
    p = root ++ '/' :: normalize_path line ∧
    fileset_contains prot (normalize_path line) = false := by
  simp only [remove_file_action] at h
  split at h
  · exact absurd h (by simp)
  · split at h
    · exact absurd h (by simp)
    · split at h
      · exact absurd h (by simp)
      · rename_i hprot
        refine ⟨?_, by simpa using hprot⟩
        split at h
        · split at h
          · split at h
            · split at h
              · exact absurd h (by simp)
              · exact (Option.some_injective _ h).symm
            · exact (Option.some_injective _ h).symm
          · exact (Option.some_injective _ h).symm
        · exact (Option.some_injective _ h).symm

/-- C5: a path listed in `<name>.list` whose saved conffile MD5 differs
from the on-disk MD5 is not unlinked by the Remove step when `purge` is
unset: its per-line action is "skip" and no line of the list issues an
`unlink` of its full path.  When `purge` is set, `aept_remove_files`
loads no saved conffiles (remove.c:36-37), and the same line is unlinked
like any other (provided it is nonempty, safe and unprotected). -/
theorem remove_step_conffile_preservation (cf : List (Path × String))
    (md5o : Path → Option String) (prot : List Path) (root line : Path)
    (lines : List Path) (m m' : String)
    (hsaved : lookupAssoc cf ('/' :: normalize_path line) = some m)
    (hdisk : md5o (root ++ '/' :: normalize_path line) = some m')
    (hne : ¬ (m' = m))
    (hnp : normalize_path line ≠ [])
    (hsafe : archive_path_is_safe (normalize_path line) = true)
    (hprot : fileset_contains prot (normalize_path line) = false) :
    remove_file_action cf md5o prot root line = none ∧
    (root ++ '/' :: normalize_path line) ∉
      remove_unlink_calls cf md5o prot root lines ∧
    remove_file_action [] md5o prot root line =
      some (root ++ '/' :: normalize_path line) := by
  have hcf : cf ≠ [] := by
    intro hnil
    rw [hnil] at hsaved
    simp [lookupAssoc] at hsaved
  have hact : remove_file_action cf md5o prot root line = none := by
    simp only [remove_file_action]
    rw [if_neg hnp, if_neg (by simp [hsafe]), if_neg (by simp [hprot]),
        if_pos hcf]
    rw [hsaved, hdisk]
    simp [hne]
  refine ⟨hact, ?_, ?_⟩
  · intro hmem
    simp only [remove_unlink_calls, List.mem_filterMap] at hmem
    obtain ⟨x, _, hx⟩ := hmem
    have hxeq := (remove_file_action_some cf md5o prot root x _ hx).1
    have : normalize_path x = normalize_path line := by
      have := hxeq
      have happ : root ++ '/' :: normalize_path x =
          root ++ '/' :: normalize_path line := this.symm
      simpa using List.append_cancel_left happ
    rw [remove_file_action_congr cf md5o prot root this, hact] at hx
    exact Option.noConfusion hx
  · simp only [remove_file_action]
    rw [if_neg hnp, if_neg (by simp [hsafe]), if_neg (by simp [hprot])]
    simp

/-- Witness for C5 at a concrete modified conffile. -/
theorem remove_step_conffile_preservation_witness :
    remove_file_action [("/etc/a.conf".toList, "m0")]
        (fun _ => some "m1") [] "/r".toList "./etc/a.conf".toList = none ∧
    remove_file_action [] (fun _ => some "m1") [] "/r".toList
        "./etc/a.conf".toList = some "/r/etc/a.conf".toList := by
  have h := remove_step_conffile_preservation
    [("/etc/a.conf".toList, "m0")] (fun _ => some "m1") [] "/r".toList
    "./etc/a.conf".toList [] "m0" "m1"
    (by decide) rfl (by decide) (by decide) (by decide) (by decide)
  exact ⟨h.1, h.2.2⟩

/-- C6: a non-zero `prerm` exit aborts `aept_do_remove` before any
mutation: the result is an error and the returned state is the input
state — no file unlinked, no info entry deleted, status, auto set and
pins untouched. -/
theorem do_remove_prerm_failure_atomic (env : Env) (name : Path)
    (prot : List Path) (st : SysState)
    (hname : pkg_name_is_safe name = true)
    (hprerm : ¬ (env.scriptExit name "prerm" = 0)) :
    aept_do_remove env name prot st = (-1, st) := by
  simp [aept_do_remove, hname, hprerm]

/-- Witness for C6 with a failing prerm on a nonempty state. -/
theorem do_remove_prerm_failure_atomic_witness :
    aept_do_remove
      ⟨"/r".toList, fun _ => none, fun _ s => if s = "prerm" then 1 else 0,
        false⟩
      "hello".toList []
      ⟨["/r/usr/bin/hello".toList],
        [("hello".toList, ["./usr/bin/hello".toList])], [],
        [("hello".toList, "control")], [("hello".toList, "installed")],
        ["hello".toList], [("hello".toList, "1.0")]⟩ =
    (-1,
      ⟨["/r/usr/bin/hello".toList],
        [("hello".toList, ["./usr/bin/hello".toList])], [],
        [("hello".toList, "control")], [("hello".toList, "installed")],
        ["hello".toList], [("hello".toList, "1.0")]⟩) :=
  do_remove_prerm_failure_atomic _ _ _ _ (by decide) (by decide)

/-- C7: a non-zero `postinst` exit during an Install step records the
package with state `unpacked` instead of `installed`, still performs the
status update (remove-then-append of the record), and the step returns
success. -/
theorem install_postinst_failure_unpacked (env : Env) (name : Path)
    (pkg : PkgData) (st : SysState)
    (hsafe : pkg_name_is_safe name = true)
    (hpre : env.scriptExit name "preinst" = 0)
    (hpost : ¬ (env.scriptExit name "postinst" = 0)) :
    (do_install_package env name pkg st).1 = 0 ∧
    (do_install_package env name pkg st).2.status =
      st.status.filter (fun r => ¬ (r.1 == name)) ++
        [(name, "unpacked")] := by
  simp [do_install_package, hsafe, hpre, hpost]

/-- Witness for C7 with a failing postinst. -/
theorem install_postinst_failure_unpacked_witness :
    (do_install_package
      ⟨"/r".toList, fun _ => none, fun _ s => if s = "postinst" then 1 else 0,
        false⟩
      "hello".toList ⟨[ArEntry.mk "./usr/bin/hello".toList], [], [], true⟩
      ⟨[], [], [], [], [("other".toList, "installed")], [], []⟩).1 = 0 ∧
    (do_install_package
      ⟨"/r".toList, fun _ => none, fun _ s => if s = "postinst" then 1 else 0,
        false⟩
      "hello".toList ⟨[ArEntry.mk "./usr/bin/hello".toList], [], [], true⟩
      ⟨[], [], [], [], [("other".toList, "installed")], [], []⟩).2.status =
      [("other".toList, "installed"), ("hello".toList, "unpacked")] := by
  have h := install_postinst_failure_unpacked
    ⟨"/r".toList, fun _ => none, fun _ s => if s = "postinst" then 1 else 0,
      false⟩
    "hello".toList ⟨[ArEntry.mk "./usr/bin/hello".toList], [], [], true⟩
    ⟨[], [], [], [], [("other".toList, "installed")], [], []⟩
    (by decide) (by decide) (by decide)
  exact ⟨h.1, by rw [h.2]; decide⟩

/-! ## Checksum gate, status load, and cancellation theorems -/

theorem lookupAssoc_filter_ne {α : Type} (l : List (Path × α)) (k : Path) :
    lookupAssoc (l.filter fun e => ¬ (e.1 == k)) k = none := by
  have hf : (l.filter fun e => ¬ (e.1 == k)).find? (fun e => e.1 == k) = none := by
    rw [List.find?_eq_none]
    intro x hx
    have := (List.mem_filter.mp hx).2
    simpa using this
  rw [lookupAssoc, hf]
  rfl

/-- C8: `verify_checksum` against a declared index checksum: a mismatch
unlinks the cached file and returns failure, so the cache never retains
a file that failed verification; a success means any retained file at
that path matches the declared checksum; and a download-phase failure
makes `aept_install` return before the execute loop, leaving the
transaction state untouched. -/
theorem verify_checksum_gate (cache : List (Path × List Nat)) (path : Path)
    (e content : List Nat) (chkOf : List Nat → List Nat)
    (hlook : lookupAssoc cache path = some content)
    (hne : ¬ (chkOf content = e)) :
    verify_checksum cache path (some e) chkOf =
      (-1, cache.filter fun x => ¬ (x.1 == path)) ∧
    lookupAssoc (verify_checksum cache path (some e) chkOf).2 path = none ∧
    (∀ (cache₀ : List (Path × List Nat)) (c : List Nat),
      (verify_checksum cache₀ path (some e) chkOf).1 = 0 →
      lookupAssoc (verify_checksum cache₀ path (some e) chkOf).2 path = some c →
      chkOf c = e) ∧
    (∀ (env : Env) (items : List DlItem) (steps : List TxStep)
        (cache₀ : List (Path × List Nat)) (ts : TxState),
      (download_phase chkOf items cache₀).1 < 0 →
      aept_install_driver env chkOf items steps cache₀ ts =
        (-1, (download_phase chkOf items cache₀).2, ts)) := by
  have hv : verify_checksum cache path (some e) chkOf =
      (-1, cache.filter fun x => ¬ (x.1 == path)) := by
    simp [verify_checksum, hlook, hne]
  refine ⟨hv, ?_, ?_, ?_⟩
  · rw [hv]
    exact lookupAssoc_filter_ne cache path
  · intro cache₀ c h0 hc
    cases hl : lookupAssoc cache₀ path with
    | none =>
      have hvc : verify_checksum cache₀ path (some e) chkOf = (-1, cache₀) := by
        simp [verify_checksum, hl]
      rw [hvc] at h0
      simp at h0
    | some content₀ =>
      by_cases heq : chkOf content₀ = e
      · have hvc : verify_checksum cache₀ path (some e) chkOf = (0, cache₀) := by
          simp [verify_checksum, hl, heq]
        rw [hvc] at hc
        rw [hl] at hc
        rw [← (Option.some_injective _ hc : content₀ = c)]
        exact heq
      · have hvc : verify_checksum cache₀ path (some e) chkOf =
            (-1, cache₀.filter fun x => ¬ (x.1 == path)) := by
          simp [verify_checksum, hl, heq]
        rw [hvc] at h0
        simp at h0
  · intro env items steps cache₀ ts hdl
    simp only [aept_install_driver]
    rw [if_pos hdl]

/-- Witness for C8: a concrete one-item download phase with a checksum
mismatch aborts the driver with the bad file unlinked. -/
theorem verify_checksum_gate_witness :
    verify_checksum [("/c/a.ipk".toList, [1, 2])] "/c/a.ipk".toList
        (some [9]) (fun c => c) =
      (-1, []) ∧
    aept_install_driver
      ⟨"/r".toList, fun _ => none, fun _ _ => 0, false⟩ (fun c => c)
      [⟨"/c/a.ipk".toList, true, [1, 2], some [9]⟩] [] []
      ⟨⟨[], [], [], [], [], [], []⟩, []⟩ =
      (-1, [], ⟨⟨[], [], [], [], [], [], []⟩, []⟩) := by
  have h := verify_checksum_gate [("/c/a.ipk".toList, [1, 2])]
    "/c/a.ipk".toList [9] [1, 2] (fun c => c) rfl (by decide)
  refine ⟨by rw [h.1]; rfl, ?_⟩
  have h4 := h.2.2.2 ⟨"/r".toList, fun _ => none, fun _ _ => 0, false⟩
    [⟨"/c/a.ipk".toList, true, [1, 2], some [9]⟩] [] []
    ⟨⟨[], [], [], [], [], [], []⟩, []⟩ (by decide)
  rw [h4]
  decide

/-- C9 counterexample: a status line that merely *begins with*
`Status: install ok unpacked` — here with a trailing `X` — is not equal
to it, yet the load normalizer rewrites it to
`Status: install ok installed` instead of carrying it byte-for-byte. -/
theorem status_load_line_counterexample :
    status_load_stream ["Status: install ok unpackedX".toList] =
      [installedStatus] ∧
    ¬ ("Status: install ok unpackedX".toList = unpackedStatus) ∧
    ¬ (status_load_stream ["Status: install ok unpackedX".toList] =
        ["Status: install ok unpackedX".toList]) ∧
    status_load_line_claimed "Status: install ok unpackedX".toList =
      "Status: install ok unpackedX".toList := by
  refine ⟨by decide, by decide, by decide, by decide⟩

theorem status_load_stream_eq_map (lines : List Path) :
    status_load_stream lines = lines.map status_load_line := by
  induction lines with
  | nil => rfl
  | cons l rest ih => simp [status_load_stream, ih]

/-- C9 (amended): the stream handed to the solver has the same number of
lines as the status file; every line beginning with
`Status: install ok unpacked` is replaced by
`Status: install ok installed` (dropping the rest of the line), and
every line not beginning with that prefix is carried byte-for-byte. -/
theorem status_load_stream_normalization (lines : List Path) :
    (status_load_stream lines).length = lines.length ∧
    ∀ i : Nat, (status_load_stream lines)[i]? =
      (lines[i]?).map fun l =>
        if unpackedStatus <+: l then installedStatus else l := by
  have hline : ∀ l : Path, status_load_line l =
      if unpackedStatus <+: l then installedStatus else l := by
    intro l
    simp only [status_load_line]
    by_cases h : unpackedStatus <+: l
    · rw [if_pos h, if_pos]
      exact (List.prefix_iff_eq_take.mp h).symm
    · rw [if_neg h, if_neg]
      intro htake
      exact h (List.prefix_iff_eq_take.mpr htake.symm)
  rw [status_load_stream_eq_map]
  refine ⟨by simp, ?_⟩
  intro i
  rw [List.getElem?_map]
  cases h : lines[i]? with
  | none => simp
  | some l => simp [hline l]

/-- C10 (code bug): with the interrupted flag raised throughout, the
erase loop of `aept_remove` stops before its first step and reports an
error with the state untouched, while the execute loop of `aept_install`
— which contains no `aept_signal_was_interrupted()` poll at all — still
runs its install step and writes the package's file. -/
theorem interrupted_flag_install_loop_gap :
    aept_remove_loop
      ⟨"/r".toList, fun _ => none, fun _ _ => 0, false⟩ (fun _ => true)
      ["a".toList]
      ⟨["/r/x".toList], [("a".toList, ["./x".toList])], [], [],
        [("a".toList, "installed")], [], []⟩ 0 =
      (-1,
        ⟨["/r/x".toList], [("a".toList, ["./x".toList])], [], [],
          [("a".toList, "installed")], [], []⟩) ∧
    "/r/usr/bin/hello".toList ∈
      (txExecSteps ⟨"/r".toList, fun _ => none, fun _ _ => 0, false⟩
        ⟨⟨[], [], [], [], [], [], []⟩, []⟩
        [TxStep.install "hello".toList
          ⟨[ArEntry.mk "./usr/bin/hello".toList], [], [], true⟩]).sys.files := by
  refine ⟨by decide, by decide⟩

/-! ## Cross-step protection (C2) -/

theorem lookupAssoc_setAssoc_self {α : Type} (l : List (Path × α))
    (k : Path) (v : α) : lookupAssoc (setAssoc l k v) k = some v := by
  have hf : (l.filter fun e => ¬ (e.1 == k)).find? (fun e => e.1 == k) = none := by
    rw [List.find?_eq_none]
    intro x hx
    have := (List.mem_filter.mp hx).2
    simpa using this
  rw [lookupAssoc, setAssoc, List.find?_append, hf]
  simp

theorem mem_foldl_fileset_add (L : List Path) :
    ∀ (init : List Path) (x : Path), x ∈ init → x ∈ L.foldl fileset_add init := by
  induction L with
  | nil => intro init x hx; exact hx
  | cons q rest ih =>
    intro init x hx
    refine ih (fileset_add init q) x ?_
    simp only [fileset_add]
    split
    · exact hx
    · exact List.mem_append_left _ hx

theorem mem_foldl_fileset_add_of_mem (L : List Path) :
    ∀ (init : List Path) (p : Path), p ∈ L → normalize_path p ≠ [] →
      normalize_path p ∈ L.foldl fileset_add init := by
  induction L with
  | nil => intro init p hp; exact absurd hp (List.not_mem_nil p)
  | cons q rest ih =>
    intro init p hp hnp
    rcases List.mem_cons.mp hp with hq | hrest
    · subst hq
      refine mem_foldl_fileset_add rest (fileset_add init p) _ ?_
      simp only [fileset_add]
      rw [if_neg hnp]
      exact List.mem_append_right _ (List.mem_singleton.mpr rfl)
    · exact ih (fileset_add init q) p hrest hnp

theorem do_upgrade_protected_mono (env : Env) (name : Path) (pkg : PkgData)
    (prot : List Path) (st : SysState) (x : Path) (hx : x ∈ prot) :
    x ∈ (do_upgrade_package env name pkg prot st).2.2 := by
  unfold do_upgrade_package
  split
  · exact hx
  · split
    · exact hx
    · split
      · exact hx
      · exact mem_foldl_fileset_add _ prot x hx

theorem txExecStep_protected_mono (env : Env) (ts : TxState) (s : TxStep)
    (x : Path) (hx : x ∈ ts.protectedSet) :
    x ∈ (txExecStep env ts s).2.protectedSet := by
  cases s with
  | erase name => exact hx
  | upgrade name pkg => exact do_upgrade_protected_mono env name pkg _ _ x hx
  | install name pkg =>
    simp only [txExecStep]
    split
    · exact hx
    · exact mem_foldl_fileset_add _ _ x hx

theorem txExecSteps_protected_mono (env : Env) (steps : List TxStep) :
    ∀ (ts : TxState) (x : Path), x ∈ ts.protectedSet →
      x ∈ (txExecSteps env ts steps).protectedSet := by
  induction steps with
  | nil => intro ts x hx; exact hx
  | cons s rest ih =>
    intro ts x hx
    simp only [txExecSteps]
    split
    · exact txExecStep_protected_mono env ts s x hx
    · exact ih _ x (txExecStep_protected_mono env ts s x hx)

theorem install_step_protected (env : Env) (ts : TxState) (B : Path)
    (pkgB : PkgData)
    (hsafeB : pkg_name_is_safe B = true)
    (hpre : env.scriptExit B "preinst" = 0) :
    (txExecStep env ts (.install B pkgB)).2.protectedSet =
      ((pkgB.entries.map (·.pathname)).takeWhile
        (fun q => archive_path_is_safe q)).foldl fileset_add
        ts.protectedSet := by
  have hinst : do_install_package env B pkgB ts.sys =
      (0, (do_install_package env B pkgB ts.sys).2) := by
    unfold do_install_package
    rw [if_neg (by simp [hsafeB]), if_neg (by simp [hpre])]
  have hlists : (do_install_package env B pkgB ts.sys).2.lists =
      setAssoc ts.sys.lists B
        ((pkgB.entries.map (·.pathname)).takeWhile
          (fun q => archive_path_is_safe q)) := by
    unfold do_install_package
    rw [if_neg (by simp [hsafeB]), if_neg (by simp [hpre])]
  simp only [txExecStep]
  rw [show (do_install_package env B pkgB ts.sys).1 = 0 by rw [hinst]]
  norm_num
  rw [hlists, lookupAssoc_setAssoc_self]
  rfl

/-- C2 counterexample: in the transaction `install b; remove a`, package
`b` ships the entry `/./foo` (accepted by `archive_path_is_safe`) and
package `a`'s `.list` also records `/./foo`.  The install step writes
`/r/foo` under the offline root, records `/./foo` in `b`'s `.list` and
stores `./foo` in the protected set — but the later Remove step's
membership probe normalizes the query a second time (to `foo`), misses
the stored `./foo`, and unlinks the file the earlier Install step wrote. -/
theorem cross_step_protection_counterexample :
    ("/r/foo".toList ∈
      (txExecSteps ⟨"/r".toList, fun _ => none, fun _ _ => 0, false⟩
        ⟨⟨[], [("a".toList, ["/./foo".toList])], [], [],
          [("a".toList, "installed")], [], []⟩, []⟩
        [TxStep.install "b".toList ⟨[ArEntry.mk "/./foo".toList], [], [], true⟩]).sys.files) ∧
    ("/./foo".toList ∈
      ((lookupAssoc
        (txExecSteps ⟨"/r".toList, fun _ => none, fun _ _ => 0, false⟩
          ⟨⟨[], [("a".toList, ["/./foo".toList])], [], [],
            [("a".toList, "installed")], [], []⟩, []⟩
          [TxStep.install "b".toList ⟨[ArEntry.mk "/./foo".toList], [], [], true⟩]).sys.lists
        "b".toList).getD [])) ∧
    ("./foo".toList ∈
      (txExecSteps ⟨"/r".toList, fun _ => none, fun _ _ => 0, false⟩
        ⟨⟨[], [("a".toList, ["/./foo".toList])], [], [],
          [("a".toList, "installed")], [], []⟩, []⟩
        [TxStep.install "b".toList ⟨[ArEntry.mk "/./foo".toList], [], [], true⟩]).protectedSet) ∧
    ("/r/foo".toList ∉
      (txExecSteps ⟨"/r".toList, fun _ => none, fun _ _ => 0, false⟩
        ⟨⟨[], [("a".toList, ["/./foo".toList])], [], [],
          [("a".toList, "installed")], [], []⟩, []⟩
        [TxStep.install "b".toList ⟨[ArEntry.mk "/./foo".toList], [], [], true⟩,
         TxStep.erase "a".toList]).sys.files) := by
  refine ⟨by decide, by decide, by decide, by decide⟩

/-- C2 (amended): paths recorded in the `.list` written by an earlier
successful Install step are inserted into the shared protected fileset,
the set only grows across subsequent steps, and a later Remove step
skips every `.list` entry whose (once-stripped) membership query — the
doubly `normalize_path`-stripped string — matches the stored key of such
a recorded path.  Hence the installed file survives the Remove step
provided every entry of the removed package's list that resolves to that
file carries the same normalized name as the recorded entry; entries
mixing leading `/` with `./` (such as `/./foo`) fall outside this
condition and can evade the protection. -/
theorem cross_step_protection_amended (env : Env) (ts : TxState)
    (mid : List TxStep) (B A p f : Path) (pkgB : PkgData) (s2 : TxState)
    (hsafeB : pkg_name_is_safe B = true)
    (hpre : env.scriptExit B "preinst" = 0)
    (hp : p ∈ (pkgB.entries.map (·.pathname)).takeWhile
      (fun q => archive_path_is_safe q))
    (hnp : normalize_path p ≠ [])
    (hs2 : s2 = txExecSteps env
      (txExecStep env ts (.install B pkgB)).2 mid)
    (hf : f ∈ s2.sys.files)
    (hx : ∀ x ∈ (lookupAssoc s2.sys.lists A).getD [],
      path_normalize (env.offline_root ++ '/' :: normalize_path x) = f →
      normalize_path (normalize_path x) = normalize_path p) :
    f ∈ (txExecStep env s2 (.erase A)).2.sys.files := by
  have hmem1 : normalize_path p ∈
      (txExecStep env ts (.install B pkgB)).2.protectedSet := by
    rw [install_step_protected env ts B pkgB hsafeB hpre]
    exact mem_foldl_fileset_add_of_mem _ _ p hp hnp
  have hmem : normalize_path p ∈ s2.protectedSet := by
    rw [hs2]
    exact txExecSteps_protected_mono env mid _ _ hmem1
  simp only [txExecStep]
  unfold aept_do_remove
  split
  · exact hf
  · split
    · exact hf
    · unfold remove_info_files
      unfold aept_remove_files
      cases hl : lookupAssoc s2.sys.lists A with
      | none => simpa using hf
      | some lines =>
        simp only [hl]
        unfold unlinkFiles
        rw [List.mem_filter]
        refine ⟨hf, ?_⟩
        simp only [decide_eq_true_eq, List.any_eq_true, not_exists]
        push_neg
        intro r hr
        simp only [remove_unlink_calls, List.mem_filterMap] at hr
        obtain ⟨x, hxl, hact⟩ := hr
        obtain ⟨hreq, hcont⟩ := remove_file_action_some _ _ _ _ _ _ hact
        subst hreq
        intro hbeq
        have hpn : path_normalize (env.offline_root ++ '/' :: normalize_path x) = f := by
          simpa using hbeq
        have hxmem : x ∈ (lookupAssoc s2.sys.lists A).getD [] := by
          rw [hl]
          exact hxl
        have hkey := hx x hxmem hpn
        have hcontains : fileset_contains s2.protectedSet
            (normalize_path x) = true := by
          unfold fileset_contains
          rw [if_neg]
          · rw [hkey]
            exact List.elem_eq_true_of_mem hmem
          · push_neg
            constructor
            · intro hhe
              rw [hhe] at hmem
              exact List.not_mem_nil _ hmem
            · rw [hkey]
              exact hnp
        rw [hcontains] at hcont
        exact Bool.noConfusion hcont

/-- Witness for C2 (amended) at a concrete transaction where the removed
package records the installed file under the same normalized name. -/
theorem cross_step_protection_amended_witness :
    "/r/foo".toList ∈
      (txExecStep ⟨"/r".toList, fun _ => none, fun _ _ => 0, false⟩
        (txExecSteps ⟨"/r".toList, fun _ => none, fun _ _ => 0, false⟩
          (txExecStep ⟨"/r".toList, fun _ => none, fun _ _ => 0, false⟩
            ⟨⟨[], [("a".toList, ["./foo".toList])], [], [],
              [("a".toList, "installed")], [], []⟩, []⟩
            (.install "b".toList ⟨[ArEntry.mk "./foo".toList], [], [], true⟩)).2
          [])
        (.erase "a".toList)).2.sys.files := by
  refine cross_step_protection_amended
    ⟨"/r".toList, fun _ => none, fun _ _ => 0, false⟩
    ⟨⟨[], [("a".toList, ["./foo".toList])], [], [],
      [("a".toList, "installed")], [], []⟩, []⟩
    [] "b".toList "a".toList "./foo".toList "/r/foo".toList
    ⟨[ArEntry.mk "./foo".toList], [], [], true⟩ _
    (by decide) (by decide) (by decide) (by decide) rfl (by decide)
    (by decide)

end Aept
